import Mathlib

/-!
Verification of the budget period / spending-summary engine of the
simple-budget repository (src/src/budget.py), shallowly embedded in Lean.

Conventions of the embedding:
* ISO date strings ("YYYY-MM-DD") and `datetime` values are modeled by a
  `Date` structure (year, month, day).  The source compares dates either as
  zero-padded ISO strings or as `datetime` objects; both orders coincide with
  chronological order on valid dates, modeled here by comparing `toDays`
  (a day count in the proleptic Gregorian calendar, as used by `datetime`).
* Python floats are modeled by exact rationals `ℚ`.
* Raised exceptions are modeled by `Except Err`; the non-terminating
  `while` loop that arises for a zero-unit period is modeled by fuel
  exhaustion mapped to `Err.nonTermination`.
* The wall clock (`now()` / `datetime.now()`) is passed explicitly as a
  `Date` parameter.
-/

namespace SimpleBudget

/-- A calendar date, standing for a Python `datetime` (at midnight) or a
zero-padded ISO "YYYY-MM-DD" string. -/
structure Date where
  year : ℕ
  month : ℕ
  day : ℕ
deriving DecidableEq, Repr

/-- Gregorian leap-year rule (as implemented by Python's `calendar`/`datetime`). -/
def isLeap (y : ℕ) : Bool :=
  (y % 4 == 0 && y % 100 != 0) || (y % 400 == 0)

/-- Days in a month, parameterized by the leap flag. Out-of-range months give 0. -/
def daysInMonthB (leap : Bool) (m : ℕ) : ℕ :=
  match m with
  | 1 => 31
  | 2 => if leap then 29 else 28
  | 3 => 31
  | 4 => 30
  | 5 => 31
  | 6 => 30
  | 7 => 31
  | 8 => 31
  | 9 => 30
  | 10 => 31
  | 11 => 30
  | 12 => 31
  | _ => 0

def daysInMonth (y m : ℕ) : ℕ := daysInMonthB (isLeap y) m

/-- A valid `datetime.date`: year ≥ 1, month in 1..12, day in range. -/
def Date.Valid (d : Date) : Prop :=
  1 ≤ d.year ∧ 1 ≤ d.month ∧ d.month ≤ 12 ∧ 1 ≤ d.day ∧ d.day ≤ daysInMonth d.year d.month

instance (d : Date) : Decidable d.Valid := by
  unfold Date.Valid; infer_instance

/-- Number of leap years strictly before year `y` (counting from year 1). -/
def leapsBefore (y : ℕ) : ℕ := (y - 1) / 4 - (y - 1) / 100 + (y - 1) / 400

/-- Days in the months of a year strictly before month `m`. -/
def daysBeforeMonth (leap : Bool) : ℕ → ℕ
  | 0 => 0
  | 1 => 0
  | m + 2 => daysBeforeMonth leap (m + 1) + daysInMonthB leap (m + 1)

/-- Day number of a date (0 for year 1, January 1st); chronological order on
valid dates coincides with the order of `toDays`. -/
def toDays (d : Date) : ℕ :=
  365 * (d.year - 1) + leapsBefore d.year
    + daysBeforeMonth (isLeap d.year) d.month + (d.day - 1)

/-- The next calendar day (`date + timedelta(days=1)`). -/
def succDate (d : Date) : Date :=
  if d.day < daysInMonth d.year d.month then ⟨d.year, d.month, d.day + 1⟩
  else if d.month < 12 then ⟨d.year, d.month + 1, 1⟩
  else ⟨d.year + 1, 1, 1⟩

/-- `date + timedelta(days=n)`. -/
def addDays (d : Date) : ℕ → Date
  | 0 => d
  | n + 1 => succDate (addDays d n)

/-- `date + relativedelta(months=u)`: advance the month index with year
carry and clamp the day to the length of the target month. -/
def addMonths (d : Date) (u : ℕ) : Date :=
  let t := (d.month - 1) + u
  let y := d.year + t / 12
  let m := t % 12 + 1
  ⟨y, m, min d.day (daysInMonth y m)⟩

lemma isLeap_iff (y : ℕ) :
    isLeap y = true ↔ ((y % 4 = 0 ∧ y % 100 ≠ 0) ∨ y % 400 = 0) := by
  simp [isLeap]

lemma daysInMonthB_pos (leap : Bool) (m : ℕ) (h1 : 1 ≤ m) (h2 : m ≤ 12) :
    1 ≤ daysInMonthB leap m := by
  interval_cases m <;> cases leap <;> decide

lemma leapsBefore_succ (y : ℕ) (hy : 1 ≤ y) :
    leapsBefore (y + 1) = leapsBefore y + (if isLeap y then 1 else 0) := by
  by_cases h : isLeap y = true
  · rw [if_pos h]
    rw [isLeap_iff] at h
    unfold leapsBefore
    omega
  · rw [if_neg h]
    rw [isLeap_iff] at h
    push_neg at h
    unfold leapsBefore
    omega

lemma daysBeforeMonth_succ (leap : Bool) (m : ℕ) (h1 : 1 ≤ m) :
    daysBeforeMonth leap (m + 1) = daysBeforeMonth leap m + daysInMonthB leap m := by
  obtain ⟨k, rfl⟩ : ∃ k, m = k + 1 := ⟨m - 1, by omega⟩
  rfl

lemma daysBeforeMonth_twelve (leap : Bool) :
    daysBeforeMonth leap 12 = 334 + (if leap then 1 else 0) := by
  cases leap <;> decide

lemma toDays_succDate (d : Date) (hv : d.Valid) :
    toDays (succDate d) = toDays d + 1 := by
  obtain ⟨hy, hm1, hm2, hd1, hd2⟩ := hv
  unfold succDate
  by_cases h1 : d.day < daysInMonth d.year d.month
  · rw [if_pos h1]
    unfold toDays
    simp only
    omega
  · rw [if_neg h1]
    have hde : d.day = daysInMonth d.year d.month := by omega
    by_cases h2 : d.month < 12
    · rw [if_pos h2]
      unfold toDays
      simp only
      rw [daysBeforeMonth_succ (isLeap d.year) d.month hm1]
      unfold daysInMonth at hde
      omega
    · rw [if_neg h2]
      have hm12 : d.month = 12 := by omega
      have hd31 : d.day = 31 := by
        rw [hde, hm12]
        unfold daysInMonth
        cases h : isLeap d.year <;> simp [daysInMonthB]
      unfold toDays
      simp only
      rw [hm12, daysBeforeMonth_twelve]
      have hl := leapsBefore_succ d.year hy
      have : daysBeforeMonth (isLeap (d.year + 1)) 1 = 0 := rfl
      by_cases hL : isLeap d.year = true
      · rw [if_pos hL] at hl ⊢
        simp only [this]
        omega
      · rw [if_neg hL] at hl ⊢
        simp only [this]
        omega

lemma valid_succDate (d : Date) (hv : d.Valid) : (succDate d).Valid := by
  obtain ⟨hy, hm1, hm2, hd1, hd2⟩ := hv
  unfold succDate
  by_cases h1 : d.day < daysInMonth d.year d.month
  · rw [if_pos h1]
    unfold Date.Valid
    dsimp only
    exact ⟨hy, hm1, hm2, by omega, by simpa using h1⟩
  · rw [if_neg h1]
    by_cases h2 : d.month < 12
    · rw [if_pos h2]
      unfold Date.Valid
      dsimp only
      refine ⟨hy, by omega, by omega, le_refl 1, ?_⟩
      exact daysInMonthB_pos _ _ (by omega) (by omega)
    · rw [if_neg h2]
      unfold Date.Valid
      dsimp only
      refine ⟨by omega, by omega, by omega, le_refl 1, ?_⟩
      exact daysInMonthB_pos _ _ (by omega) (by omega)

lemma addDays_spec (d : Date) (n : ℕ) (hv : d.Valid) :
    (addDays d n).Valid ∧ toDays (addDays d n) = toDays d + n := by
  induction n with
  | zero => exact ⟨hv, rfl⟩
  | succ k ih =>
    refine ⟨valid_succDate _ ih.1, ?_⟩
    show toDays (succDate (addDays d k)) = toDays d + (k + 1)
    rw [toDays_succDate _ ih.1, ih.2]
    omega

/-- Linear month index of a date: `12 * (year - 1) + (month - 1)`. -/
def monthIdx (d : Date) : ℕ := 12 * (d.year - 1) + (d.month - 1)

/-- Day number of the first day of the month with linear index `i`. -/
def daysBeforeIdx (i : ℕ) : ℕ :=
  365 * (i / 12) + leapsBefore (i / 12 + 1)
    + daysBeforeMonth (isLeap (i / 12 + 1)) (i % 12 + 1)

lemma monthIdx_div (d : Date) (hm1 : 1 ≤ d.month) (hm2 : d.month ≤ 12)
    (hy : 1 ≤ d.year) :
    monthIdx d / 12 = d.year - 1 ∧ monthIdx d % 12 = d.month - 1 := by
  unfold monthIdx; omega

lemma toDays_eq_daysBeforeIdx (d : Date) (hv : d.Valid) :
    toDays d = daysBeforeIdx (monthIdx d) + (d.day - 1) := by
  obtain ⟨hy, hm1, hm2, hd1, hd2⟩ := hv
  obtain ⟨h1, h2⟩ := monthIdx_div d hm1 hm2 hy
  unfold toDays daysBeforeIdx
  rw [h1, h2]
  have e1 : d.year - 1 + 1 = d.year := by omega
  have e2 : d.month - 1 + 1 = d.month := by omega
  rw [e1, e2]

lemma daysBeforeIdx_succ (i : ℕ) :
    daysBeforeIdx (i + 1)
      = daysBeforeIdx i + daysInMonthB (isLeap (i / 12 + 1)) (i % 12 + 1) := by
  by_cases h : i % 12 < 11
  · have h1 : (i + 1) / 12 = i / 12 := by omega
    have h2 : (i + 1) % 12 = i % 12 + 1 := by omega
    unfold daysBeforeIdx
    rw [h1, h2, daysBeforeMonth_succ _ _ (by omega)]
    omega
  · have h11 : i % 12 = 11 := by omega
    have h1 : (i + 1) / 12 = i / 12 + 1 := by omega
    have h2 : (i + 1) % 12 = 0 := by omega
    unfold daysBeforeIdx
    rw [h1, h2, h11]
    have hz : daysBeforeMonth (isLeap (i / 12 + 1 + 1)) (0 + 1) = 0 := rfl
    rw [hz]
    have e12 : (11 : ℕ) + 1 = 12 := rfl
    rw [e12]
    have hl := leapsBefore_succ (i / 12 + 1) (by omega)
    have h12 := daysBeforeMonth_twelve (isLeap (i / 12 + 1))
    have hd12 : daysInMonthB (isLeap (i / 12 + 1)) 12 = 31 := by
      cases hc : isLeap (i / 12 + 1) <;> rfl
    rw [hd12, h12]
    by_cases hL : isLeap (i / 12 + 1) = true
    · rw [if_pos hL] at hl ⊢
      omega
    · rw [if_neg hL] at hl ⊢
      omega

lemma daysBeforeIdx_le (i u : ℕ) : daysBeforeIdx i + u ≤ daysBeforeIdx (i + u) := by
  induction u with
  | zero => simp
  | succ k ih =>
    have h := daysBeforeIdx_succ (i + k)
    have hpos : 1 ≤ daysInMonthB (isLeap ((i + k) / 12 + 1)) ((i + k) % 12 + 1) :=
      daysInMonthB_pos _ _ (by omega) (by omega)
    have he : i + (k + 1) = i + k + 1 := by omega
    rw [he]
    omega

lemma valid_addMonths (d : Date) (u : ℕ) (hv : d.Valid) : (addMonths d u).Valid := by
  obtain ⟨_hy, hm1, hm2, hd1, hd2⟩ := hv
  unfold addMonths Date.Valid
  dsimp only
  have hpos : 1 ≤ daysInMonth (d.year + ((d.month - 1) + u) / 12)
      (((d.month - 1) + u) % 12 + 1) :=
    daysInMonthB_pos _ _ (by omega) (by omega)
  refine ⟨by omega, by omega, by omega, by omega, by omega⟩

lemma monthIdx_addMonths (d : Date) (u : ℕ) (hm1 : 1 ≤ d.month) (hy : 1 ≤ d.year) :
    monthIdx (addMonths d u) = monthIdx d + u := by
  unfold addMonths monthIdx
  dsimp only
  omega

lemma toDays_addMonths_lt (d : Date) (u : ℕ) (hv : d.Valid) (hu : 1 ≤ u) :
    toDays d < toDays (addMonths d u) := by
  have hv' := valid_addMonths d u hv
  obtain ⟨hy, hm1, hm2, hd1, hd2⟩ := hv
  rw [toDays_eq_daysBeforeIdx d ⟨hy, hm1, hm2, hd1, hd2⟩, toDays_eq_daysBeforeIdx _ hv']
  rw [monthIdx_addMonths d u hm1 hy]
  have h1 : daysBeforeIdx (monthIdx d + 1) + (u - 1) ≤ daysBeforeIdx (monthIdx d + u) := by
    have h := daysBeforeIdx_le (monthIdx d + 1) (u - 1)
    have he : monthIdx d + 1 + (u - 1) = monthIdx d + u := by omega
    rw [he] at h
    exact h
  have h2 := daysBeforeIdx_succ (monthIdx d)
  have hdiv := monthIdx_div d hm1 hm2 hy
  have h3 : daysInMonthB (isLeap (monthIdx d / 12 + 1)) (monthIdx d % 12 + 1)
      = daysInMonth d.year d.month := by
    rw [hdiv.1, hdiv.2]
    have e1 : d.year - 1 + 1 = d.year := by omega
    have e2 : d.month - 1 + 1 = d.month := by omega
    rw [e1, e2]
    rfl
  have h4 : 1 ≤ (addMonths d u).day := hv'.2.2.2.1
  omega

/-! ## The period model (`src/src/budget.py`) -/

/-- Python exceptions raised by the budget module. -/
inductive Err where
  | valueError (msg : String)
  | keyError (key : String)
  | typeError
  | assertionError
  | zeroDivisionError
  | attributeError
  | indexError
  | nonTermination
deriving DecidableEq, Repr

instance {ε α : Type} [DecidableEq ε] [DecidableEq α] : DecidableEq (Except ε α) := fun a b =>
  match a, b with
  | .error x, .error y =>
    if h : x = y then .isTrue (congrArg Except.error h)
    else .isFalse (fun hh => h (Except.error.inj hh))
  | .error _, .ok _ => .isFalse (fun hh => Except.noConfusion hh)
  | .ok _, .error _ => .isFalse (fun hh => Except.noConfusion hh)
  | .ok x, .ok y =>
    if h : x = y then .isTrue (congrArg Except.ok h)
    else .isFalse (fun hh => h (Except.ok.inj hh))

/-- `INCREMENT_TO_DAY_MAP = {"month": 30.5, "day": 7}` (budget.py lines 11-14);
a missing key raises `KeyError`, modeled by `none`. -/
def INCREMENT_TO_DAY_MAP (increment : String) : Option ℚ :=
  if increment = "month" then some (61 / 2)
  else if increment = "day" then some 7
  else none

/-- The state built by `BudgetPeriod.__init__`. -/
structure BudgetPeriod where
  period : String
  relative_to : Date
  increment : String
  unit : ℕ
deriving DecidableEq, Repr

/-- `re.search(r"\d_.*", s)`: the string contains a digit immediately followed
by an underscore (the `.*` tail matches anything, including nothing). -/
def hasDigitUnderscore : List Char → Bool
  | c1 :: c2 :: rest => (c1.isDigit && c2 == '_') || hasDigitUnderscore (c2 :: rest)
  | _ => false

/-- budget.py lines 53-55: a `quarter` increment is normalized to `month`
with the unit multiplied by 3. -/
def normalizeQuarter (p : BudgetPeriod) : BudgetPeriod :=
  if p.increment = "quarter" then
    { p with increment := "month", unit := p.unit * 3 }
  else p

/-- `BudgetPeriod.__init__(period, relative_to)` with the wall clock passed
explicitly.  The source compares `relative_to > now()` on zero-padded ISO
strings, which coincides with chronological order, modeled via `toDays`.
`int(period[0])` on a non-digit character raises `ValueError`. -/
def BudgetPeriod.make (period : String) (relative_to : Date) (now : Date) :
    Except Err BudgetPeriod :=
  if toDays now < toDays relative_to then
    .error (.valueError ("relative_to must not be in the future"))
  else if period = "month" ∨ period = "week" ∨ period = "quarter" then
    .ok (normalizeQuarter ⟨period, relative_to, period, 1⟩)
  else if hasDigitUnderscore period.data then
    match period.data with
    | [] => .error (.valueError ("Unrecognized Period Format"))
    | c :: _ =>
      if c.isDigit then
        .ok (normalizeQuarter
          ⟨period, relative_to, String.mk (period.data.drop 2), c.toNat - 48⟩)
      else
        .error (.valueError ("invalid literal for int"))
  else
    .error (.valueError ("Unrecognized Period Format"))

/-- The date-advancing function `relativedelta(**{f"{increment}s": unit})`
builds, keyed by the increment name; an unknown keyword argument raises
`TypeError` (`none`).  `week`/`month` are the increments the module expects;
`day`/`year` are also valid `relativedelta` keywords reachable from specs
like `"3_day"`. -/
def stepFn (increment : String) (unit : ℕ) : Option (Date → Date) :=
  if increment = "week" then some (fun d => addDays d (7 * unit))
  else if increment = "month" then some (fun d => addMonths d unit)
  else if increment = "day" then some (fun d => addDays d unit)
  else if increment = "year" then some (fun d => addMonths d (12 * unit))
  else none

/-- The `while start_date < now_date` loop of `bounds_iter`, returning the
last yielded `(start, end)` pair.  `none` models fuel exhaustion (the loop
not terminating), `some none` models the loop yielding nothing (guard false
at entry), `some (some p)` the last yielded pair. -/
def lastBoundsAux (f : Date → Date) (now : Date) : ℕ → Date → Option (Option (Date × Date))
  | 0, start =>
    if toDays start < toDays now then none else some none
  | fuel + 1, start =>
    if toDays start < toDays now then
      match lastBoundsAux f now fuel (f start) with
      | none => none
      | some none => some (some (start, f start))
      | some (some p) => some (some p)
    else some none

/-- Exhausting `bounds_iter` and keeping the final `(start_date, end_date)`
pair, as `latest`/`next` do.  The `assert start_date < now_date` raises
`AssertionError` when the anchor is not strictly before now.  The fuel
`toDays now - toDays relative_to` bounds the iteration count whenever each
step advances the date by at least one day. -/
def BudgetPeriod.lastBounds (p : BudgetPeriod) (now : Date) : Except Err (Date × Date) :=
  if toDays p.relative_to < toDays now then
    match stepFn p.increment p.unit with
    | none => .error .typeError
    | some f =>
      match lastBoundsAux f now (toDays now - toDays p.relative_to) p.relative_to with
      | some (some pr) => .ok pr
      | some none => .error .assertionError
      | none => .error .nonTermination
  else .error .assertionError

/-- `BudgetPeriod.latest`: the first component of the final bounds pair. -/
def BudgetPeriod.latest (p : BudgetPeriod) (now : Date) : Except Err Date :=
  (p.lastBounds now).map (fun pr => pr.1)

/-- `BudgetPeriod.next`: the second component of the final bounds pair. -/
def BudgetPeriod.next (p : BudgetPeriod) (now : Date) : Except Err Date :=
  (p.lastBounds now).map (fun pr => pr.2)

/-- `BudgetPeriod.perc_complete`:
`(datetime.now() - latest).days * 1.0 / (next - latest).days`.  Whole-day
differences are day-number differences; float division by zero raises
`ZeroDivisionError`. -/
def BudgetPeriod.perc_complete (p : BudgetPeriod) (now : Date) : Except Err ℚ := do
  let pr ← p.lastBounds now
  let num : ℤ := (toDays now : ℤ) - (toDays pr.1 : ℤ)
  let den : ℤ := (toDays pr.2 : ℤ) - (toDays pr.1 : ℤ)
  if den = 0 then .error .zeroDivisionError else .ok ((num : ℚ) / (den : ℚ))

/-- `BudgetPeriod.translation_multiplier(other_period)` (budget.py 93-105).
Python evaluates the numerator's map lookup before the denominator's, and a
zero denominator raises `ZeroDivisionError`. -/
def BudgetPeriod.translation_multiplier (self other : BudgetPeriod) : Except Err ℚ :=
  if other.increment = self.increment then
    if self.unit = 0 then .error .zeroDivisionError
    else .ok ((other.unit : ℚ) / (self.unit : ℚ))
  else do
    let dOther ← match INCREMENT_TO_DAY_MAP other.increment with
      | some v => Except.ok v
      | none => Except.error (Err.keyError other.increment)
    let dSelf ← match INCREMENT_TO_DAY_MAP self.increment with
      | some v => Except.ok v
      | none => Except.error (Err.keyError self.increment)
    if (self.unit : ℚ) * dSelf = 0 then .error .zeroDivisionError
    else .ok (((other.unit : ℚ) * dOther) / ((self.unit : ℚ) * dSelf))

/-! ## Budget items and plans -/

/-- A `BudgetItem` (category, limit, optional period); amounts are exact
rationals standing for Python floats. -/
structure BudgetItem where
  category : String
  limit : ℚ
  period : Option BudgetPeriod
deriving DecidableEq, Repr

/-- `BudgetItem.period_limit(period)`: the limit translated to the target
period; the identity when the item has no period. -/
def BudgetItem.period_limit (item : BudgetItem) (period : BudgetPeriod) : Except Err ℚ :=
  match item.period with
  | none => .ok item.limit
  | some p => (p.translation_multiplier period).map (fun m => item.limit * m)

/-- `TotalBudgetItem(limit, period)`: category is the sentinel `"total"`;
a missing period raises `ValueError`. -/
def TotalBudgetItem.make (limit : ℚ) (period : Option BudgetPeriod) : Except Err BudgetItem :=
  match period with
  | none => .error (.valueError ("period cannot be None for TotalBudgetItem"))
  | some p => .ok ⟨"total", limit, some p⟩

/-- Python dict insertion: an existing key keeps its position and gets the
new value, a fresh key is appended. -/
def dictInsert (l : List (String × BudgetItem)) (k : String) (v : BudgetItem) :
    List (String × BudgetItem) :=
  match l with
  | [] => [(k, v)]
  | (k', v') :: rest => if k' = k then (k', v) :: rest else (k', v') :: dictInsert rest k v

/-- `{bi.category: bi for bi in items}` preserving Python dict semantics. -/
def buildDict (items : List BudgetItem) : List (String × BudgetItem) :=
  items.foldl (fun acc i => dictInsert acc i.category i) []

/-- The list comprehension feeding the `Counter`
(`[bi.period.period for bi in category_budgets.values()]`): reading
`.period.period` of an item whose period is `None` raises `AttributeError`. -/
def periodStrings : List BudgetItem → Except Err (List String)
  | [] => .ok []
  | item :: rest =>
    match item.period with
    | none => .error .attributeError
    | some p => (periodStrings rest).map (fun l => p.period :: l)

/-- The list comprehension of translated limits summed for the synthesized
total (`[bi.period_limit(default_period) for bi in ...]`). -/
def periodLimits (target : BudgetPeriod) : List BudgetItem → Except Err (List ℚ)
  | [] => .ok []
  | item :: rest => do
    let l ← item.period_limit target
    let ls ← periodLimits target rest
    .ok (l :: ls)

/-- `Counter(...).most_common(1)[0][0]`: the most frequent element, ties
broken by first insertion (Python's `Counter` is insertion-ordered and
`most_common` sorts stably by descending count).  `none` models the
`IndexError` of indexing into an empty `most_common` list. -/
def mostCommon (l : List String) : Option String :=
  match l.foldl (fun acc s => if s ∈ acc then acc else acc ++ [s]) [] with
  | [] => none
  | k :: ks => some (ks.foldl (fun best k' => if l.count best < l.count k' then k' else best) k)

/-- A `BudgetPlan`: insertion-ordered category dict plus the total item. -/
structure BudgetPlan where
  category_budgets : List (String × BudgetItem)
  total_budget_item : BudgetItem
deriving DecidableEq, Repr

/-- `BudgetPlan.__init__(total_budget_item, category_budget_items)`
(budget.py 156-198), with the wall clock passed explicitly (the synthesized
default period is anchored at January 1st of the current year). -/
def defaultAnchor (now : Date) : Date := ⟨now.year, 1, 1⟩

def BudgetPlan.make (total_budget_item : Option BudgetItem)
    (category_budget_items : Option (List BudgetItem)) (now : Date) :
    Except Err BudgetPlan :=
  match total_budget_item, category_budget_items with
  | none, none =>
    .error (.valueError ("Must specify one of total_budget_item or category_budget_items"))
  | tot, cats =>
    let category_budgets := match cats with
      | none => []
      | some items => buildDict items
    match tot with
    | some t => .ok ⟨category_budgets, t⟩
    | none => do
      let specs ← periodStrings (category_budgets.map Prod.snd)
      match mostCommon specs with
      | none => .error .indexError
      | some spec => do
        let dp ← BudgetPeriod.make spec (defaultAnchor now) now
        let limits ← periodLimits dp (category_budgets.map Prod.snd)
        let total ← TotalBudgetItem.make limits.sum (some dp)
        .ok ⟨category_budgets, total⟩

/-! ## The spending summarizer (`Budget.simple_summary`) -/

/-- A transaction row: the core reads `amount`, `category_1` and the
precomputed bucket-label columns (`week`/`month`/`year`/`day`). -/
structure Tx where
  amount : ℚ
  category_1 : String
  week : String
  month : String
  year : String
  day : String
deriving DecidableEq, Repr

/-- `df[col]` for the bucket-label columns; `none` models the `KeyError`
raised for a column the transaction table does not have. -/
def Tx.col (t : Tx) (c : String) : Option String :=
  if c = "week" then some t.week
  else if c = "month" then some t.month
  else if c = "year" then some t.year
  else if c = "day" then some t.day
  else none

/-- `df[date_inc]` raises `KeyError` when the label column is absent,
independently of the rows. -/
def columnCheck (date_inc : String) : Except Err Unit :=
  if date_inc = "week" ∨ date_inc = "month" ∨ date_inc = "year" ∨ date_inc = "day" then
    .ok ()
  else .error (.keyError date_inc)

def totalAmount (txs : List Tx) : ℚ := (txs.map Tx.amount).sum

/-- `curr_df[curr_df["category_1"] == category]["amount"].sum()`. -/
def catSpending (txs : List Tx) (category : String) : ℚ :=
  ((txs.filter (fun t => t.category_1 = category)).map Tx.amount).sum

/-- One row of the summary frame. -/
structure SummaryRow where
  category : String
  spent : ℚ
  total_budget : ℚ
  projected_budget : ℚ
deriving DecidableEq, Repr

/-- The per-category loop of `simple_summary` (budget.py 315-323). -/
def catRows (bp : BudgetPeriod) (perc : ℚ) (curr : List Tx) :
    List (String × BudgetItem) → Except Err (List SummaryRow)
  | [] => .ok []
  | (category, item) :: rest => do
    let limit ← item.period_limit bp
    let rs ← catRows bp perc curr rest
    .ok (⟨category, catSpending curr category, limit, perc * limit⟩ :: rs)

/-- `Budget.total_limit(date_inc)` (budget.py 334-337). -/
def Budget.total_limit (plan : BudgetPlan) (date_inc : String) (now : Date) : Except Err ℚ := do
  let bp ← BudgetPeriod.make date_inc (defaultAnchor now) now
  plan.total_budget_item.period_limit bp

/-- `Budget.simple_summary(date_inc, period)` (budget.py 294-332).
`perc_complete` is hoisted out of the loop: it is deterministic in
`(plan, date_inc, now)`, so only the identity of the raised exception — not
whether one is raised, nor any returned value — can differ from the source's
interleaving. -/
def Budget.simple_summary (plan : BudgetPlan) (txs : List Tx) (date_inc : String)
    (period : String) (now : Date) : Except Err (List SummaryRow) := do
  let bp ← BudgetPeriod.make date_inc (defaultAnchor now) now
  let _ ← columnCheck date_inc
  let curr := txs.filter (fun t => t.col date_inc = some period)
  let perc ← bp.perc_complete now
  let rows ← catRows bp perc curr plan.category_budgets
  let total ← Budget.total_limit plan date_inc now
  let other_limit := total - (rows.map SummaryRow.total_budget).sum
  .ok (rows ++ [⟨"Other", totalAmount curr - (rows.map SummaryRow.spent).sum,
    other_limit, perc * other_limit⟩])

/-! ## Characterization of the bounds loop -/

lemma lastBoundsAux_some_none (f : Date → Date) (now : Date) (fuel : ℕ) (start : Date)
    (h : lastBoundsAux f now fuel start = some none) :
    ¬ toDays start < toDays now := by
  intro hg
  cases fuel with
  | zero =>
    unfold lastBoundsAux at h
    rw [if_pos hg] at h
    exact Option.noConfusion h
  | succ k =>
    unfold lastBoundsAux at h
    rw [if_pos hg] at h
    cases hm : lastBoundsAux f now k (f start) with
    | none => rw [hm] at h; exact Option.noConfusion h
    | some o =>
      cases o with
      | none =>
        rw [hm] at h
        injection h with h1
        exact Option.noConfusion h1
      | some p =>
        rw [hm] at h
        injection h with h1
        exact Option.noConfusion h1

lemma lastBoundsAux_sound (f : Date → Date) (now : Date) (P : Date → Prop)
    (hP : ∀ d, P d → P (f d)) :
    ∀ (fuel : ℕ) (start s e : Date), P start →
      lastBoundsAux f now fuel start = some (some (s, e)) →
      P s ∧ e = f s ∧ toDays s < toDays now ∧ ¬ toDays e < toDays now := by
  intro fuel
  induction fuel with
  | zero =>
    intro start s e hstart h
    unfold lastBoundsAux at h
    by_cases hg : toDays start < toDays now
    · rw [if_pos hg] at h; exact Option.noConfusion h
    · rw [if_neg hg] at h
      injection h with h1
      exact Option.noConfusion h1
  | succ k ih =>
    intro start s e hstart h
    unfold lastBoundsAux at h
    by_cases hg : toDays start < toDays now
    · rw [if_pos hg] at h
      cases hm : lastBoundsAux f now k (f start) with
      | none => rw [hm] at h; exact Option.noConfusion h
      | some o =>
        cases o with
        | none =>
          rw [hm] at h
          injection h with h1
          injection h1 with h2
          have hs : start = s := congrArg Prod.fst h2
          have he : f start = e := congrArg Prod.snd h2
          subst hs
          subst he
          exact ⟨hstart, rfl, hg, lastBoundsAux_some_none f now k (f start) hm⟩
        | some p =>
          rw [hm] at h
          injection h with h1
          injection h1 with h2
          subst h2
          exact ih (f start) s e (hP _ hstart) hm
    · rw [if_neg hg] at h
      injection h with h1
      exact Option.noConfusion h1

lemma lastBoundsAux_isSome (f : Date → Date) (now : Date)
    (hstep : ∀ d, d.Valid → (f d).Valid ∧ toDays d < toDays (f d)) :
    ∀ (fuel : ℕ) (start : Date), start.Valid →
      toDays now ≤ toDays start + fuel →
      (lastBoundsAux f now fuel start).isSome = true := by
  intro fuel
  induction fuel with
  | zero =>
    intro start _hv hle
    unfold lastBoundsAux
    rw [if_neg (by omega)]
    rfl
  | succ k ih =>
    intro start hv hle
    unfold lastBoundsAux
    by_cases hg : toDays start < toDays now
    · rw [if_pos hg]
      obtain ⟨hv', hlt⟩ := hstep start hv
      have hsome := ih (f start) hv' (by omega)
      cases hm : lastBoundsAux f now k (f start) with
      | none => rw [hm] at hsome; exact Bool.noConfusion hsome
      | some o => cases o <;> rfl
    · rw [if_neg hg]; rfl

/-- For `week`/`month` increments with a positive unit, the loop step is the
corresponding calendar advance, preserves validity, and strictly advances
the date. -/
lemma stepFn_props (inc : String) (u : ℕ) (hinc : inc = "week" ∨ inc = "month")
    (hu : 1 ≤ u) :
    ∃ f, stepFn inc u = some f ∧
      (∀ d, d.Valid → (f d).Valid ∧ toDays d < toDays (f d)) ∧
      (∀ d, f d = if inc = "week" then addDays d (7 * u) else addMonths d u) := by
  rcases hinc with rfl | rfl
  · refine ⟨fun d => addDays d (7 * u), rfl, ?_, fun d => by rw [if_pos rfl]⟩
    intro d hd
    show (addDays d (7 * u)).Valid ∧ toDays d < toDays (addDays d (7 * u))
    obtain ⟨h1, h2⟩ := addDays_spec d (7 * u) hd
    exact ⟨h1, by omega⟩
  · refine ⟨fun d => addMonths d u, rfl, ?_, fun d => by rw [if_neg (by decide)]⟩
    intro d hd
    show (addMonths d u).Valid ∧ toDays d < toDays (addMonths d u)
    exact ⟨valid_addMonths d u hd, toDays_addMonths_lt d u hd hu⟩

/-- Main characterization of `bounds_iter`'s final pair: for a `week`/`month`
period with positive unit and a valid anchor strictly before now, the walk
terminates at a pair `(s, e)` with `s < now ≤ e` and `e` one period step
after `s`. -/
lemma lastBounds_ok (p : BudgetPeriod) (now : Date) (f : Date → Date)
    (hf : stepFn p.increment p.unit = some f)
    (hstep : ∀ d, d.Valid → (f d).Valid ∧ toDays d < toDays (f d))
    (hv : p.relative_to.Valid) (hlt : toDays p.relative_to < toDays now) :
    ∃ s e, p.lastBounds now = .ok (s, e) ∧ s.Valid ∧ e = f s ∧
      toDays s < toDays now ∧ toDays now ≤ toDays e := by
  unfold BudgetPeriod.lastBounds
  rw [if_pos hlt, hf]
  have hsome := lastBoundsAux_isSome f now hstep (toDays now - toDays p.relative_to)
    p.relative_to hv (by omega)
  cases hm : lastBoundsAux f now (toDays now - toDays p.relative_to) p.relative_to with
  | none => rw [hm] at hsome; exact Bool.noConfusion hsome
  | some o =>
    cases o with
    | none => exact absurd hlt (lastBoundsAux_some_none _ _ _ _ hm)
    | some pr =>
      obtain ⟨s, e⟩ := pr
      have hs := lastBoundsAux_sound f now Date.Valid (fun d hd => (hstep d hd).1)
        _ _ s e hv hm
      refine ⟨s, e, ?_, hs.1, hs.2.1, hs.2.2.1, ?_⟩
      · show (match lastBoundsAux f now (toDays now - toDays p.relative_to) p.relative_to with
          | some (some pr) => Except.ok pr
          | some none => Except.error Err.assertionError
          | none => Except.error Err.nonTermination) = Except.ok (s, e)
        rw [hm]
      · have := hs.2.2.2
        omega

/-! ## Claims -/

/-- A concrete monthly period (spec `"month"`, anchored 2024-01-01), as
produced by `BudgetPeriod("month")` with the clock in 2024. -/
def monthPeriod : BudgetPeriod := ⟨"month", ⟨2024, 1, 1⟩, "month", 1⟩

/-- A concrete weekly period (spec `"week"`, anchored 2024-01-01). -/
def weekPeriod : BudgetPeriod := ⟨"week", ⟨2024, 1, 1⟩, "week", 1⟩

/-- C1: the claim says `period_limit` rescales across week/month increments
using the day-length table `week = 7`, `month = 30.5`, so that a 400/month
item rescaled to a week period yields 400 * 7 / 30.5.  The code's
`INCREMENT_TO_DAY_MAP` instead maps the key `"day"` (not `"week"`) to 7, so
the conversion looks up a missing `"week"` key and raises `KeyError`: the
scenario's `period_limit` call errors instead of returning ≈ 91.80. -/
theorem C1_week_month_conversion_raises_keyerror :
    BudgetPeriod.make ("month") ⟨2024, 1, 1⟩ ⟨2024, 5, 15⟩ = .ok monthPeriod ∧
    BudgetPeriod.make ("week") ⟨2024, 1, 1⟩ ⟨2024, 5, 15⟩ = .ok weekPeriod ∧
    (BudgetItem.mk ("Groceries") 400 (some monthPeriod)).period_limit weekPeriod
      = .error (.keyError ("week")) ∧
    INCREMENT_TO_DAY_MAP ("week") = none ∧
    INCREMENT_TO_DAY_MAP ("day") = some 7 ∧
    INCREMENT_TO_DAY_MAP ("month") = some (61 / 2) := by
  refine ⟨rfl, rfl, rfl, rfl, rfl, ?_⟩
  with_unfolding_all decide

/-- C3: the claim's scenario (categories A: 100 per month, B: 50 per week,
no explicit total) should synthesize a total of period month with limit
100 + 50 * 30.5 / 7.  The period-frequency rule does pick `"month"`
(first-encountered on the 1-1 tie), but summing the rescaled limits crashes:
B's week-to-month conversion hits the missing `"week"` key of
`INCREMENT_TO_DAY_MAP`, so plan construction raises `KeyError` instead of
producing the claimed total. -/
theorem C3_plan_synthesis_raises_keyerror :
    BudgetPlan.make none
      (some [BudgetItem.mk ("A") 100 (some monthPeriod),
             BudgetItem.mk ("B") 50 (some weekPeriod)])
      ⟨2024, 5, 15⟩ = .error (.keyError ("week")) ∧
    mostCommon ["month", "week"] = some ("month") := by
  constructor
  · with_unfolding_all decide
  · rfl

/-- C4: the claim says a period anchored at today's date is valid and
`latest()` returns the anchor without failing.  Construction indeed accepts
`relative_to == now` (the guard is strict `>`), but `bounds_iter` then
executes `assert start_date < now_date`, which fails: `latest()` raises
`AssertionError` instead of returning the anchor. -/
theorem C4_anchor_equal_to_now_latest_raises :
    BudgetPeriod.make ("month") ⟨2024, 5, 15⟩ ⟨2024, 5, 15⟩
      = .ok ⟨"month", ⟨2024, 5, 15⟩, "month", 1⟩ ∧
    (BudgetPeriod.mk ("month") ⟨2024, 5, 15⟩ ("month") 1).latest ⟨2024, 5, 15⟩
      = .error .assertionError := ⟨rfl, rfl⟩

/-- Helper for C10: the `Counter`-feeding comprehension raises
`AttributeError` as soon as some item in the dict's values has no period. -/
lemma periodStrings_error (l : List BudgetItem) (h : ∃ i ∈ l, i.period = none) :
    periodStrings l = .error .attributeError := by
  induction l with
  | nil => simp at h
  | cons a t ih =>
    obtain ⟨i, hmem, hi⟩ := h
    unfold periodStrings
    cases hm : a.period with
    | none => rfl
    | some p =>
      rcases List.mem_cons.mp hmem with rfl | hmem'
      · rw [hm] at hi
        exact Option.noConfusion hi
      · rw [ih ⟨i, hmem', hi⟩]
        rfl

/-- C9 counterexample: the claim quantifies over every item/target pair with
equal increment and unit, but the constructor accepts the spec `"0_week"`
(unit 0), for which `period_limit` raises `ZeroDivisionError` instead of
returning the item's limit. -/
theorem C9_cex_zero_unit_raises :
    ∃ p, BudgetPeriod.make ("0_week") ⟨2024, 1, 1⟩ ⟨2024, 5, 15⟩ = .ok p ∧
      p.increment = "week" ∧ p.unit = 0 ∧
      (BudgetItem.mk ("c") 5 (some p)).period_limit p = .error .zeroDivisionError :=
  ⟨⟨"0_week", ⟨2024, 1, 1⟩, "week", 0⟩, rfl, rfl, rfl, rfl⟩

/-- C9 (amended): for every BudgetItem with a present period of nonzero
unit, `period_limit` is the identity on the limit whenever the target period
has the same increment and unit (the conversion factor is exactly 1). -/
theorem C9_amended_same_period_identity (item : BudgetItem) (sp tp : BudgetPeriod)
    (hp : item.period = some sp) (hinc : tp.increment = sp.increment)
    (hu : tp.unit = sp.unit) (hnz : sp.unit ≠ 0) :
    item.period_limit tp = .ok item.limit := by
  unfold BudgetItem.period_limit
  rw [hp]
  show (sp.translation_multiplier tp).map (fun m => item.limit * m) = .ok item.limit
  unfold BudgetPeriod.translation_multiplier
  rw [if_pos hinc, if_neg hnz]
  have h1 : ((tp.unit : ℚ) / (sp.unit : ℚ)) = 1 := by
    rw [hu]
    exact div_self (by exact_mod_cast hnz)
  show Except.ok (item.limit * ((tp.unit : ℚ) / (sp.unit : ℚ))) = .ok item.limit
  rw [h1, mul_one]

/-- C9 witness: a 400/month item rescaled to the same month period keeps its
limit. -/
theorem C9_witness :
    (BudgetItem.mk ("Groceries") 400 (some monthPeriod)).period_limit monthPeriod
      = .ok 400 :=
  C9_amended_same_period_identity _ monthPeriod monthPeriod rfl rfl rfl (by decide)

set_option maxRecDepth 10000 in
/-- C10 counterexample: the claim quantifies over every category list with
some period-less item, but when a later item reuses the same category name,
Python's dict comprehension drops the period-less item before the
synthesized-total rule reads periods, and construction succeeds. -/
theorem C10_cex_shadowed_none_period_succeeds :
    BudgetPlan.make none
      (some [BudgetItem.mk ("A") 100 none,
             BudgetItem.mk ("A") 50 (some monthPeriod)])
      ⟨2024, 5, 15⟩
      = .ok ⟨[("A", BudgetItem.mk ("A") 50 (some monthPeriod))],
             ⟨"total", 50, some monthPeriod⟩⟩ := by
  with_unfolding_all decide

/-- C10 (amended): if no explicit total is given and some item with an
absent (all-time) period survives the category-dict deduplication, plan
construction fails with the `AttributeError` of reading `.period.period`
on `None`. -/
theorem C10_amended_surviving_none_period_fails (items : List BudgetItem) (now : Date)
    (h : ∃ ci ∈ buildDict items, ci.2.period = none) :
    BudgetPlan.make none (some items) now = .error .attributeError := by
  have hvals : ∃ i ∈ (buildDict items).map Prod.snd, i.period = none := by
    obtain ⟨ci, hmem, hci⟩ := h
    exact ⟨ci.2, List.mem_map.mpr ⟨ci, hmem, rfl⟩, hci⟩
  show (do
    let specs ← periodStrings ((buildDict items).map Prod.snd)
    match mostCommon specs with
    | none => Except.error Err.indexError
    | some spec => do
      let dp ← BudgetPeriod.make spec (defaultAnchor now) now
      let limits ← periodLimits dp ((buildDict items).map Prod.snd)
      let total ← TotalBudgetItem.make limits.sum (some dp)
      Except.ok (⟨buildDict items, total⟩ : BudgetPlan))
    = Except.error Err.attributeError
  rw [periodStrings_error _ hvals]
  rfl

/-- C10 witness: a single category item with an all-time (absent) period and
no explicit total makes plan construction raise. -/
theorem C10_witness :
    BudgetPlan.make none (some [BudgetItem.mk ("A") 100 none]) ⟨2024, 5, 15⟩
      = .error .attributeError :=
  C10_amended_surviving_none_period_fails _ _ (by with_unfolding_all decide)

lemma hasDU_shape (l : List Char) (h : hasDigitUnderscore l = true) :
    ∃ c1 c2 r, l = c1 :: c2 :: r := by
  match l with
  | [] => exact absurd h (by simp [hasDigitUnderscore])
  | [c] => exact absurd h (by simp [hasDigitUnderscore])
  | c1 :: c2 :: r => exact ⟨c1, c2, r, rfl⟩

lemma normalizeQuarter_fields (p : BudgetPeriod) :
    (normalizeQuarter p).period = p.period ∧
    (normalizeQuarter p).relative_to = p.relative_to ∧
    ((p.increment = "quarter" ∧ (normalizeQuarter p).increment = "month" ∧
        (normalizeQuarter p).unit = p.unit * 3) ∨
     (p.increment ≠ "quarter" ∧ (normalizeQuarter p).increment = p.increment ∧
        (normalizeQuarter p).unit = p.unit)) := by
  unfold normalizeQuarter
  by_cases h : p.increment = "quarter"
  · rw [if_pos h]
    exact ⟨rfl, rfl, Or.inl ⟨h, rfl, rfl⟩⟩
  · rw [if_neg h]
    exact ⟨rfl, rfl, Or.inr ⟨h, rfl, rfl⟩⟩

/-- C6 counterexample: the claim says constructing a period from any string
other than the keywords and `"<N>_week"`/`"<N>_month"` fails, but the
regex-based check accepts `"1_banana"` (any string containing a digit
followed by an underscore), producing a period with increment `"banana"`;
multi-digit units are also mis-parsed: `"12_week"` yields unit 1 with
increment `"_week"`, not unit 12. -/
theorem C6_cex_malformed_specs_accepted :
    BudgetPeriod.make ("1_banana") ⟨2024, 1, 1⟩ ⟨2024, 5, 15⟩
      = .ok ⟨"1_banana", ⟨2024, 1, 1⟩, "banana", 1⟩ ∧
    BudgetPeriod.make ("12_week") ⟨2024, 1, 1⟩ ⟨2024, 5, 15⟩
      = .ok ⟨"12_week", ⟨2024, 1, 1⟩, "_week", 1⟩ ∧
    BudgetPeriod.make ("0_week") ⟨2024, 1, 1⟩ ⟨2024, 5, 15⟩
      = .ok ⟨"0_week", ⟨2024, 1, 1⟩, "week", 0⟩ := ⟨rfl, rfl, rfl⟩

/-- C6 (amended): with a non-future anchor, construction succeeds exactly on
the keywords `"week"`/`"month"`/`"quarter"` (unit 1, quarter normalized to
month x 3) and on strings that contain a digit immediately followed by an
underscore and whose first character is a digit; for the latter the unit is
the value of the first digit and the increment is the substring from index 2
(an increment `"quarter"` again normalized to month with unit x 3).  All
other strings fail with a `ValueError`. -/
theorem C6_amended_parse_characterization (s : String) (a n : Date)
    (hfut : ¬ toDays n < toDays a) :
    ((∃ p, BudgetPeriod.make s a n = .ok p) ↔
      (s = "month" ∨ s = "week" ∨ s = "quarter" ∨
        (hasDigitUnderscore s.data = true ∧ ∃ c r, s.data = c :: r ∧ c.isDigit = true))) ∧
    (∀ p, BudgetPeriod.make s a n = .ok p →
      p.period = s ∧ p.relative_to = a ∧
      ((s = "month" ∧ p.increment = "month" ∧ p.unit = 1) ∨
       (s = "week" ∧ p.increment = "week" ∧ p.unit = 1) ∨
       (s = "quarter" ∧ p.increment = "month" ∧ p.unit = 3) ∨
       (∃ c r, s.data = c :: r ∧ c.isDigit = true ∧
         ((String.mk (s.data.drop 2) = "quarter" ∧ p.increment = "month" ∧
            p.unit = (c.toNat - 48) * 3) ∨
          (String.mk (s.data.drop 2) ≠ "quarter" ∧
            p.increment = String.mk (s.data.drop 2) ∧ p.unit = c.toNat - 48))))) := by
  by_cases hk : (s = "month" ∨ s = "week" ∨ s = "quarter")
  · have hmk : BudgetPeriod.make s a n = .ok (normalizeQuarter ⟨s, a, s, 1⟩) := by
      unfold BudgetPeriod.make
      rw [if_neg hfut, if_pos hk]
    constructor
    · constructor
      · intro _
        tauto
      · intro _
        exact ⟨_, hmk⟩
    · intro p hp
      rw [hmk] at hp
      injection hp with hp
      rcases hk with rfl | rfl | rfl <;> subst hp
      · exact ⟨rfl, rfl, Or.inl ⟨rfl, rfl, rfl⟩⟩
      · exact ⟨rfl, rfl, Or.inr (Or.inl ⟨rfl, rfl, rfl⟩)⟩
      · exact ⟨rfl, rfl, Or.inr (Or.inr (Or.inl ⟨rfl, rfl, rfl⟩))⟩
  · by_cases hdu : hasDigitUnderscore s.data = true
    · obtain ⟨c1, c2, r, hd⟩ := hasDU_shape s.data hdu
      have hdrop : s.data.drop 2 = r := by rw [hd]; rfl
      have hmk : BudgetPeriod.make s a n =
          (if c1.isDigit = true then
            Except.ok (normalizeQuarter ⟨s, a, String.mk r, c1.toNat - 48⟩)
          else Except.error (Err.valueError ("invalid literal for int"))) := by
        unfold BudgetPeriod.make
        rw [if_neg hfut, if_neg hk, if_pos hdu, hd]
        rfl
      constructor
      · constructor
        · rintro ⟨p, hp⟩
          rw [hmk] at hp
          by_cases hdig : c1.isDigit = true
          · exact Or.inr (Or.inr (Or.inr ⟨hdu, c1, c2 :: r, hd, hdig⟩))
          · rw [if_neg hdig] at hp
            exact Except.noConfusion hp
        · rintro (rfl | rfl | rfl | ⟨-, c, r', hdr, hdig⟩)
          · exact absurd (Or.inl rfl) hk
          · exact absurd (Or.inr (Or.inl rfl)) hk
          · exact absurd (Or.inr (Or.inr rfl)) hk
          · have hc : c = c1 := by
              rw [hd] at hdr
              exact (List.cons.injEq _ _ _ _ ▸ hdr).1.symm
            subst hc
            rw [hmk, if_pos hdig]
            exact ⟨_, rfl⟩
      · intro p hp
        rw [hmk] at hp
        by_cases hdig : c1.isDigit = true
        · rw [if_pos hdig] at hp
          injection hp with hp
          subst hp
          obtain ⟨hper, hrel, hcases⟩ :=
            normalizeQuarter_fields ⟨s, a, String.mk r, c1.toNat - 48⟩
          refine ⟨hper, hrel, Or.inr (Or.inr (Or.inr ⟨c1, c2 :: r, hd, hdig, ?_⟩))⟩
          rw [hdrop]
          rcases hcases with ⟨hq, hi, hu⟩ | ⟨hq, hi, hu⟩
          · exact Or.inl ⟨hq, hi, hu⟩
          · exact Or.inr ⟨hq, by rw [hi], hu⟩
        · rw [if_neg hdig] at hp
          exact Except.noConfusion hp
    · have hmk : BudgetPeriod.make s a n
          = .error (.valueError ("Unrecognized Period Format")) := by
        unfold BudgetPeriod.make
        rw [if_neg hfut, if_neg hk, if_neg hdu]
      constructor
      · constructor
        · rintro ⟨p, hp⟩
          rw [hmk] at hp
          exact Except.noConfusion hp
        · rintro (rfl | rfl | rfl | ⟨hdu2, -⟩)
          · exact absurd (Or.inl rfl) hk
          · exact absurd (Or.inr (Or.inl rfl)) hk
          · exact absurd (Or.inr (Or.inr rfl)) hk
          · exact absurd hdu2 hdu
      · intro p hp
        rw [hmk] at hp
        exact Except.noConfusion hp

/-- C6 witness: the spec `"2_month"` parses (unit 2, increment month) and
falls in the characterized acceptance set. -/
theorem C6_witness :
    ((∃ p, BudgetPeriod.make ("2_month") ⟨2024, 1, 1⟩ ⟨2024, 5, 15⟩ = .ok p) ↔
      (("2_month" : String) = "month" ∨ ("2_month" : String) = "week" ∨
        ("2_month" : String) = "quarter" ∨
        (hasDigitUnderscore ("2_month" : String).data = true ∧
          ∃ c r, ("2_month" : String).data = c :: r ∧ c.isDigit = true))) ∧
    (∀ p, BudgetPeriod.make ("2_month") ⟨2024, 1, 1⟩ ⟨2024, 5, 15⟩ = .ok p →
      p.period = "2_month" ∧ p.relative_to = ⟨2024, 1, 1⟩ ∧
      ((("2_month" : String) = "month" ∧ p.increment = "month" ∧ p.unit = 1) ∨
       (("2_month" : String) = "week" ∧ p.increment = "week" ∧ p.unit = 1) ∨
       (("2_month" : String) = "quarter" ∧ p.increment = "month" ∧ p.unit = 3) ∨
       (∃ c r, ("2_month" : String).data = c :: r ∧ c.isDigit = true ∧
         ((String.mk (("2_month" : String).data.drop 2) = "quarter" ∧
            p.increment = "month" ∧ p.unit = (c.toNat - 48) * 3) ∨
          (String.mk (("2_month" : String).data.drop 2) ≠ "quarter" ∧
            p.increment = String.mk (("2_month" : String).data.drop 2) ∧
            p.unit = c.toNat - 48))))) :=
  C6_amended_parse_characterization ("2_month") ⟨2024, 1, 1⟩ ⟨2024, 5, 15⟩ (by decide)

/-- The spec string `"<N>_<inc>"` for a single-digit `N`. -/
def digitSpec (N : ℕ) (inc : String) : String :=
  String.mk (Char.ofNat (48 + N) :: '_' :: inc.data)

lemma digitChar_isDigit (N : ℕ) (h : N ≤ 9) : (Char.ofNat (48 + N)).isDigit = true := by
  interval_cases N <;> decide

lemma digitChar_toNat (N : ℕ) (h : N ≤ 9) : (Char.ofNat (48 + N)).toNat = 48 + N := by
  interval_cases N <;> decide

lemma digitSpec_not_keyword (N : ℕ) (inc : String) :
    ¬ (digitSpec N inc = "month" ∨ digitSpec N inc = "week" ∨
        digitSpec N inc = "quarter") := by
  have hd : (digitSpec N inc).data = Char.ofNat (48 + N) :: '_' :: inc.data := rfl
  rintro (h | h | h)
  · have h2 := congrArg String.data h
    rw [hd, show ("month" : String).data = 'm' :: 'o' :: 'n' :: 't' :: 'h' :: [] from rfl] at h2
    injection h2 with h3 h4
    injection h4 with h5 h6
    exact absurd h5 (by decide)
  · have h2 := congrArg String.data h
    rw [hd, show ("week" : String).data = 'w' :: 'e' :: 'e' :: 'k' :: [] from rfl] at h2
    injection h2 with h3 h4
    injection h4 with h5 h6
    exact absurd h5 (by decide)
  · have h2 := congrArg String.data h
    rw [hd, show ("quarter" : String).data
      = 'q' :: 'u' :: 'a' :: 'r' :: 't' :: 'e' :: 'r' :: [] from rfl] at h2
    injection h2 with h3 h4
    injection h4 with h5 h6
    exact absurd h5 (by decide)

/-- Parsing a well-formed single-digit spec `"<N>_<inc>"` yields increment
`inc` and unit `N`. -/
lemma make_digitSpec (N : ℕ) (inc : String) (a n : Date) (h9 : N ≤ 9)
    (hfut : ¬ toDays n < toDays a) (hq : inc ≠ "quarter") :
    BudgetPeriod.make (digitSpec N inc) a n = .ok ⟨digitSpec N inc, a, inc, N⟩ := by
  have hd : (digitSpec N inc).data = Char.ofNat (48 + N) :: '_' :: inc.data := rfl
  unfold BudgetPeriod.make
  rw [if_neg hfut, if_neg (digitSpec_not_keyword N inc), hd]
  have hdu : hasDigitUnderscore (Char.ofNat (48 + N) :: '_' :: inc.data) = true := by
    unfold hasDigitUnderscore
    rw [digitChar_isDigit N h9]
    simp
  rw [if_pos hdu]
  show (if (Char.ofNat (48 + N)).isDigit = true then
      Except.ok (normalizeQuarter
        ⟨digitSpec N inc, a,
          String.mk (List.drop 2 (Char.ofNat (48 + N) :: '_' :: inc.data)),
          (Char.ofNat (48 + N)).toNat - 48⟩)
    else Except.error (Err.valueError ("invalid literal for int")))
    = Except.ok ⟨digitSpec N inc, a, inc, N⟩
  rw [if_pos (digitChar_isDigit N h9)]
  have h1 : String.mk (List.drop 2 (Char.ofNat (48 + N) :: '_' :: inc.data)) = inc := by
    show String.mk inc.data = inc
    cases inc
    rfl
  have h2 : (Char.ofNat (48 + N)).toNat - 48 = N := by
    rw [digitChar_toNat N h9]
    omega
  rw [h1, h2]
  have h3 : normalizeQuarter ⟨digitSpec N inc, a, inc, N⟩ = ⟨digitSpec N inc, a, inc, N⟩ := by
    unfold normalizeQuarter
    rw [if_neg hq]
  rw [h3]

/-- C2 counterexample, refuting three aspects of the claim at concrete
inputs: (a) with spec `"1_week"` anchored 2024-01-01 and now = 2024-01-08
(an interval boundary), the final pair is (2024-01-01, 2024-01-08), so
`next() == now` and the claimed strict `now < next()` fails; (b) the valid
spec `"12_week"` (N = 12) parses to unit 1 with increment `"_week"`, and
`latest()` raises `TypeError` instead of walking 12-week intervals; (c) an
anchor equal to now (allowed by the claim's "not after now") makes
`latest()` raise `AssertionError`. -/
theorem C2_cex_boundary_multidigit_anchor :
    (BudgetPeriod.make ("1_week") ⟨2024, 1, 1⟩ ⟨2024, 1, 8⟩
        = .ok ⟨"1_week", ⟨2024, 1, 1⟩, "week", 1⟩ ∧
      (BudgetPeriod.mk ("1_week") ⟨2024, 1, 1⟩ ("week") 1).lastBounds ⟨2024, 1, 8⟩
        = .ok (⟨2024, 1, 1⟩, ⟨2024, 1, 8⟩) ∧
      ¬ toDays (⟨2024, 1, 8⟩ : Date) < toDays (⟨2024, 1, 8⟩ : Date)) ∧
    (BudgetPeriod.make ("12_week") ⟨2024, 1, 1⟩ ⟨2024, 5, 15⟩
        = .ok ⟨"12_week", ⟨2024, 1, 1⟩, "_week", 1⟩ ∧
      (BudgetPeriod.mk ("12_week") ⟨2024, 1, 1⟩ ("_week") 1).latest ⟨2024, 5, 15⟩
        = .error .typeError) ∧
    (BudgetPeriod.make ("1_week") ⟨2024, 5, 15⟩ ⟨2024, 5, 15⟩
        = .ok ⟨"1_week", ⟨2024, 5, 15⟩, "week", 1⟩ ∧
      (BudgetPeriod.mk ("1_week") ⟨2024, 5, 15⟩ ("week") 1).latest ⟨2024, 5, 15⟩
        = .error .assertionError) := by
  exact ⟨⟨rfl, rfl, by decide⟩, ⟨rfl, rfl⟩, ⟨rfl, rfl⟩⟩

/-- C2 (amended): for every spec `"<N>_week"`/`"<N>_month"` with `N` a
single digit 1-9, every valid anchor strictly before now, the final bounds
pair `(latest, next)` satisfies `latest < now <= next` and `next` is exactly
`latest` advanced by `N` calendar increments (N weeks, or N relativedelta
months). -/
theorem C2_amended_bounds_invariant (N : ℕ) (inc : String) (a n : Date) (p : BudgetPeriod)
    (h1 : 1 ≤ N) (h9 : N ≤ 9) (hinc : inc = "week" ∨ inc = "month")
    (hva : a.Valid) (hlt : toDays a < toDays n)
    (hmk : BudgetPeriod.make (digitSpec N inc) a n = .ok p) :
    ∃ s e, p.lastBounds n = .ok (s, e) ∧ p.latest n = .ok s ∧ p.next n = .ok e ∧
      toDays s < toDays n ∧ toDays n ≤ toDays e ∧
      e = (if inc = "week" then addDays s (7 * N) else addMonths s N) := by
  have hq : inc ≠ "quarter" := by
    rcases hinc with rfl | rfl <;> decide
  rw [make_digitSpec N inc a n h9 (by omega) hq] at hmk
  injection hmk with hmk
  subst hmk
  obtain ⟨f, hf, hstep, hfeq⟩ := stepFn_props inc N hinc h1
  obtain ⟨s, e, hlb, hsv, hse, hlt1, hle1⟩ :=
    lastBounds_ok ⟨digitSpec N inc, a, inc, N⟩ n f hf hstep hva hlt
  refine ⟨s, e, hlb, ?_, ?_, hlt1, hle1, ?_⟩
  · unfold BudgetPeriod.latest
    rw [hlb]
    rfl
  · unfold BudgetPeriod.next
    rw [hlb]
    rfl
  · rw [hse, hfeq s]

/-- C2 witness: the spec `"2_week"` anchored 2024-01-01 with now 2024-01-20
gives latest 2024-01-15, next 2024-01-29 = latest + 2 weeks. -/
theorem C2_witness :
    ∃ s e, (BudgetPeriod.mk ("2_week") ⟨2024, 1, 1⟩ ("week") 2).lastBounds ⟨2024, 1, 20⟩
        = .ok (s, e) ∧
      (BudgetPeriod.mk ("2_week") ⟨2024, 1, 1⟩ ("week") 2).latest ⟨2024, 1, 20⟩ = .ok s ∧
      (BudgetPeriod.mk ("2_week") ⟨2024, 1, 1⟩ ("week") 2).next ⟨2024, 1, 20⟩ = .ok e ∧
      toDays s < toDays ⟨2024, 1, 20⟩ ∧ toDays (⟨2024, 1, 20⟩ : Date) ≤ toDays e ∧
      e = (if ("week" : String) = "week" then addDays s (7 * 2) else addMonths s 2) :=
  C2_amended_bounds_invariant 2 ("week") ⟨2024, 1, 1⟩ ⟨2024, 1, 20⟩
    (BudgetPeriod.mk ("2_week") ⟨2024, 1, 1⟩ ("week") 2)
    (by decide) (by decide) (Or.inl rfl) (by decide) (by decide) (by decide)

/-- Inversion: a successful `lastBounds` pair satisfies the loop invariants. -/
lemma lastBounds_inv (p : BudgetPeriod) (n : Date) (f : Date → Date)
    (hf : stepFn p.increment p.unit = some f) (s e : Date)
    (h : p.lastBounds n = .ok (s, e)) :
    e = f s ∧ toDays s < toDays n ∧ toDays n ≤ toDays e ∧
      toDays p.relative_to < toDays n := by
  unfold BudgetPeriod.lastBounds at h
  by_cases hg : toDays p.relative_to < toDays n
  · rw [if_pos hg, hf] at h
    revert h
    show (match lastBoundsAux f n (toDays n - toDays p.relative_to) p.relative_to with
      | some (some pr) => Except.ok pr
      | some none => Except.error Err.assertionError
      | none => Except.error Err.nonTermination) = Except.ok (s, e) → _
    intro h
    cases hm : lastBoundsAux f n (toDays n - toDays p.relative_to) p.relative_to with
    | none => rw [hm] at h; exact Except.noConfusion h
    | some o =>
      cases o with
      | none => rw [hm] at h; exact Except.noConfusion h
      | some pr =>
        rw [hm] at h
        injection h with h1
        subst h1
        have hs := lastBoundsAux_sound f n (fun _ => True) (fun _ _ => trivial)
          _ _ s e trivial hm
        exact ⟨hs.2.1, hs.2.2.1, by have := hs.2.2.2; omega, hg⟩
  · rw [if_neg hg] at h
    exact Except.noConfusion h

/-- Evaluating `perc_complete` once the final bounds pair is known. -/
lemma perc_complete_eval (p : BudgetPeriod) (n s e : Date)
    (hlb : p.lastBounds n = .ok (s, e)) (hne : toDays s < toDays e) :
    p.perc_complete n
      = .ok (((((toDays n : ℤ) - (toDays s : ℤ)) : ℤ) : ℚ)
          / ((((toDays e : ℤ) - (toDays s : ℤ)) : ℤ) : ℚ)) := by
  unfold BudgetPeriod.perc_complete
  rw [hlb]
  show (if (((toDays e : ℤ) - (toDays s : ℤ)) : ℤ) = 0 then
      (Except.error Err.zeroDivisionError : Except Err ℚ)
    else .ok (((((toDays n : ℤ) - (toDays s : ℤ)) : ℤ) : ℚ)
        / ((((toDays e : ℤ) - (toDays s : ℤ)) : ℤ) : ℚ)))
    = .ok (((((toDays n : ℤ) - (toDays s : ℤ)) : ℤ) : ℚ)
        / ((((toDays e : ℤ) - (toDays s : ℤ)) : ℤ) : ℚ))
  rw [if_neg (by omega)]

/-- C5 counterexample: the claim puts `percent_complete()` in `[0, 1)` with
a reset to ≈0 at each interval start; but on 2024-02-01 — the start of a
new monthly interval — the final pair is (2024-01-01, 2024-02-01) and
`perc_complete` returns 31/31 = 1, outside `[0, 1)` and not ≈ 0. -/
theorem C5_cex_boundary_day_equals_one :
    BudgetPeriod.make ("month") ⟨2024, 1, 1⟩ ⟨2024, 2, 1⟩ = .ok monthPeriod ∧
    monthPeriod.lastBounds ⟨2024, 2, 1⟩ = .ok (⟨2024, 1, 1⟩, ⟨2024, 2, 1⟩) ∧
    monthPeriod.perc_complete ⟨2024, 2, 1⟩ = .ok 1 := by
  refine ⟨rfl, rfl, ?_⟩
  with_unfolding_all decide

/-- C5 (amended): for a parsed week/month period with positive unit, a valid
anchor strictly before now, `perc_complete` lies in the half-open interval
`(0, 1]`; it is monotonically non-decreasing as now advances while the
interval (the `latest` boundary) is unchanged; it equals 1 exactly on the
day the interval closes, and on the first day strictly inside an interval it
equals `1/(interval length in days)` — the "reset to ≈ 0" happens the day
after the boundary, not on it. -/
theorem C5_amended_perc_complete_props (p : BudgetPeriod) (n n2 : Date)
    (hinc : p.increment = "week" ∨ p.increment = "month") (hu : 1 ≤ p.unit)
    (hva : p.relative_to.Valid) (hlt : toDays p.relative_to < toDays n) :
    (∃ q, p.perc_complete n = .ok q ∧ 0 < q ∧ q ≤ 1) ∧
    (∀ s e e2 q q2, p.lastBounds n = .ok (s, e) → p.lastBounds n2 = .ok (s, e2) →
      toDays n ≤ toDays n2 →
      p.perc_complete n = .ok q → p.perc_complete n2 = .ok q2 → q ≤ q2) ∧
    (∀ s e q, p.lastBounds n = .ok (s, e) → toDays n = toDays e →
      p.perc_complete n = .ok q → q = 1) ∧
    (∀ s e q, p.lastBounds n = .ok (s, e) → toDays n = toDays s + 1 →
      p.perc_complete n = .ok q →
      q = 1 / ((((toDays e : ℤ) - (toDays s : ℤ)) : ℤ) : ℚ)) := by
  obtain ⟨f, hf, hstep, hfeq⟩ := stepFn_props p.increment p.unit hinc hu
  refine ⟨?_, ?_, ?_, ?_⟩
  · obtain ⟨s, e, hlb, hsv, hse, h1, h2⟩ := lastBounds_ok p n f hf hstep hva hlt
    refine ⟨_, perc_complete_eval p n s e hlb (by omega), ?_, ?_⟩
    · apply div_pos
      · exact_mod_cast (by omega : (0 : ℤ) < (toDays n : ℤ) - (toDays s : ℤ))
      · exact_mod_cast (by omega : (0 : ℤ) < (toDays e : ℤ) - (toDays s : ℤ))
    · rw [div_le_one (by exact_mod_cast (by omega : (0 : ℤ) < (toDays e : ℤ) - (toDays s : ℤ)))]
      exact_mod_cast (by omega : (toDays n : ℤ) - (toDays s : ℤ) ≤ (toDays e : ℤ) - (toDays s : ℤ))
  · intro s e e2 q q2 hlb1 hlb2 hle hq1 hq2
    obtain ⟨he1, hs1, hn1, -⟩ := lastBounds_inv p n f hf s e hlb1
    obtain ⟨he2, hs2, hn2, -⟩ := lastBounds_inv p n2 f hf s e2 hlb2
    rw [perc_complete_eval p n s e hlb1 (by omega)] at hq1
    rw [perc_complete_eval p n2 s e2 hlb2 (by omega)] at hq2
    injection hq1 with hq1
    injection hq2 with hq2
    subst hq1
    subst hq2
    have hde : toDays e2 = toDays e := by rw [he1, he2]
    rw [hde]
    have hden : (0 : ℚ) < (((toDays e : ℤ) - (toDays s : ℤ) : ℤ) : ℚ) :=
      by exact_mod_cast (by omega : (0 : ℤ) < (toDays e : ℤ) - (toDays s : ℤ))
    rw [div_le_div_iff_of_pos_right hden]
    exact_mod_cast (by omega : (toDays n : ℤ) - (toDays s : ℤ) ≤ (toDays n2 : ℤ) - (toDays s : ℤ))
  · intro s e q hlb1 hne hq1
    obtain ⟨he1, hs1, hn1, -⟩ := lastBounds_inv p n f hf s e hlb1
    rw [perc_complete_eval p n s e hlb1 (by omega)] at hq1
    injection hq1 with hq1
    subst hq1
    rw [hne]
    exact div_self (by exact_mod_cast (by omega : ((toDays e : ℤ) - (toDays s : ℤ)) ≠ 0))
  · intro s e q hlb1 hne hq1
    obtain ⟨he1, hs1, hn1, -⟩ := lastBounds_inv p n f hf s e hlb1
    rw [perc_complete_eval p n s e hlb1 (by omega)] at hq1
    injection hq1 with hq1
    subst hq1
    rw [hne]
    norm_num

/-- C5 witness: the monthly period at now = 2024-01-16 and later now
2024-01-20 (same January interval). -/
theorem C5_witness :
    (∃ q, monthPeriod.perc_complete ⟨2024, 1, 16⟩ = .ok q ∧ 0 < q ∧ q ≤ 1) ∧
    (∀ s e e2 q q2, monthPeriod.lastBounds ⟨2024, 1, 16⟩ = .ok (s, e) →
      monthPeriod.lastBounds ⟨2024, 1, 20⟩ = .ok (s, e2) →
      toDays (⟨2024, 1, 16⟩ : Date) ≤ toDays ⟨2024, 1, 20⟩ →
      monthPeriod.perc_complete ⟨2024, 1, 16⟩ = .ok q →
      monthPeriod.perc_complete ⟨2024, 1, 20⟩ = .ok q2 → q ≤ q2) ∧
    (∀ s e q, monthPeriod.lastBounds ⟨2024, 1, 16⟩ = .ok (s, e) →
      toDays (⟨2024, 1, 16⟩ : Date) = toDays e →
      monthPeriod.perc_complete ⟨2024, 1, 16⟩ = .ok q → q = 1) ∧
    (∀ s e q, monthPeriod.lastBounds ⟨2024, 1, 16⟩ = .ok (s, e) →
      toDays (⟨2024, 1, 16⟩ : Date) = toDays s + 1 →
      monthPeriod.perc_complete ⟨2024, 1, 16⟩ = .ok q →
      q = 1 / ((((toDays e : ℤ) - (toDays s : ℤ)) : ℤ) : ℚ)) :=
  C5_amended_perc_complete_props monthPeriod ⟨2024, 1, 16⟩ ⟨2024, 1, 20⟩
    (Or.inr rfl) (by decide) (by decide) (by decide)

lemma except_bind_ok {ε α β : Type} (x : Except ε α) (f : α → Except ε β) (b : β) :
    (x >>= f) = Except.ok b ↔ ∃ a, x = Except.ok a ∧ f a = Except.ok b := by
  cases x with
  | error e =>
    constructor
    · intro h
      exact absurd h (by simp [Bind.bind, Except.bind])
    · rintro ⟨a, ha, -⟩
      exact Except.noConfusion ha
  | ok a =>
    constructor
    · intro h
      exact ⟨a, rfl, h⟩
    · rintro ⟨a', ha, hf⟩
      injection ha with ha
      subst ha
      exact hf

/-- Concrete single-category plan used by the summarizer witnesses. -/
def planA : BudgetPlan :=
  ⟨[("A", ⟨"A", 100, some monthPeriod⟩)], ⟨"total", 100, some monthPeriod⟩⟩

/-- Concrete transactions used by the summarizer witnesses. -/
def txA : Tx := ⟨30, "A", "2024-W19", "2024-05", "2024", "2024-05-10"⟩

def txB : Tx := ⟨20, "B", "2024-W19", "2024-05", "2024", "2024-05-11"⟩

def txMarch : Tx := ⟨10, "A", "2024-W10", "2024-03", "2024", "2024-03-05"⟩

/-- C7: in every successful `simple_summary` result, the spent column
(categories plus the residual "Other" row) sums to the total spend of the
filtered transactions, and the budgeted column sums to the plan's total
limit rescaled to the queried period (`total_limit`). -/
theorem C7_summary_conservation (plan : BudgetPlan) (txs : List Tx)
    (date_inc pv : String) (now : Date) (rows : List SummaryRow)
    (h : Budget.simple_summary plan txs date_inc pv now = .ok rows) :
    (rows.map SummaryRow.spent).sum
        = totalAmount (txs.filter (fun t => t.col date_inc = some pv)) ∧
    Budget.total_limit plan date_inc now
        = .ok ((rows.map SummaryRow.total_budget).sum) := by
  unfold Budget.simple_summary at h
  simp only [except_bind_ok] at h
  obtain ⟨bp, hbp, u, hcol, perc, hperc, rows0, hrows0, total, htotal, hok⟩ := h
  injection hok with hok
  subst hok
  constructor
  · rw [List.map_append, List.sum_append]
    simp only [List.map_cons, List.map_nil, List.sum_cons, List.sum_nil]
    ring
  · rw [htotal]
    congr 1
    rw [List.map_append, List.sum_append]
    simp only [List.map_cons, List.map_nil, List.sum_cons, List.sum_nil]
    ring

set_option maxRecDepth 10000 in
/-- C7 witness: a one-category plan over two transactions (one of them
uncategorized in the plan) in 2024-05. -/
theorem C7_witness :
    (([⟨"A", 30, 100, 1400 / 31⟩, ⟨"Other", 20, 0, 0⟩] : List SummaryRow).map
        SummaryRow.spent).sum
      = totalAmount ([txA, txB].filter (fun t => t.col ("month") = some ("2024-05"))) ∧
    Budget.total_limit planA ("month") ⟨2024, 5, 15⟩
      = .ok ((([⟨"A", 30, 100, 1400 / 31⟩, ⟨"Other", 20, 0, 0⟩] : List SummaryRow).map
          SummaryRow.total_budget).sum) :=
  C7_summary_conservation planA [txA, txB] ("month") ("2024-05") ⟨2024, 5, 15⟩
    [⟨"A", 30, 100, 1400 / 31⟩, ⟨"Other", 20, 0, 0⟩]
    (by with_unfolding_all decide)

/-- The per-category loop succeeds or fails independently of the filtered
transactions and of the completion percentage: only the period conversions
can raise.  A successful run keeps the same budgeted column. -/
lemma catRows_transfer (bp : BudgetPeriod) (perc1 perc2 : ℚ) (c1 c2 : List Tx) :
    ∀ (l : List (String × BudgetItem)) (r1 : List SummaryRow),
      catRows bp perc1 c1 l = .ok r1 →
      ∃ r2, catRows bp perc2 c2 l = .ok r2 ∧
        r1.map SummaryRow.total_budget = r2.map SummaryRow.total_budget := by
  intro l
  induction l with
  | nil =>
    intro r1 h
    injection h with h
    subst h
    exact ⟨[], rfl, rfl⟩
  | cons a t ih =>
    intro r1 h
    obtain ⟨cat, item⟩ := a
    unfold catRows at h ⊢
    simp only [except_bind_ok] at h
    obtain ⟨limit, hl, rs, hrs, hok⟩ := h
    injection hok with hok
    subst hok
    obtain ⟨rs2, hrs2, hbud⟩ := ih rs hrs
    refine ⟨⟨cat, catSpending c2 cat, limit, perc2 * limit⟩ :: rs2, ?_, ?_⟩
    · simp only [except_bind_ok]
      exact ⟨limit, hl, rs2, hrs2, rfl⟩
    · simp [hbud]

/-- Shape of a successful per-category loop: categories in plan order, each
budgeted value the item's translated limit, and zero spent when the filtered
transaction set is empty. -/
lemma catRows_facts (bp : BudgetPeriod) (perc : ℚ) (curr : List Tx) :
    ∀ (l : List (String × BudgetItem)) (r : List SummaryRow),
      catRows bp perc curr l = .ok r →
      r.map SummaryRow.category = l.map Prod.fst ∧
      List.Forall₂ (fun (ci : String × BudgetItem) (row : SummaryRow) =>
        ci.2.period_limit bp = .ok row.total_budget) l r ∧
      (curr = [] → ∀ row ∈ r, row.spent = 0) := by
  intro l
  induction l with
  | nil =>
    intro r h
    injection h with h
    subst h
    exact ⟨rfl, List.Forall₂.nil, fun _ _ hm => absurd hm (List.not_mem_nil _)⟩
  | cons a t ih =>
    intro r h
    obtain ⟨cat, item⟩ := a
    unfold catRows at h
    simp only [except_bind_ok] at h
    obtain ⟨limit, hl, rs, hrs, hok⟩ := h
    injection hok with hok
    subst hok
    obtain ⟨h1, h2, h3⟩ := ih rs hrs
    refine ⟨by simp [h1], List.Forall₂.cons hl h2, ?_⟩
    intro hc row hmem
    rcases List.mem_cons.mp hmem with rfl | hm
    · subst hc
      simp [catSpending]
    · exact h3 hc row hm

/-- C8: an empty bucket is not a fault.  If no transaction matches the
queried `period_value` and the summarizer succeeds on some (any) transaction
table — i.e., the plan's conversions succeed, success being independent of
the transactions — then it succeeds on the given table, every row has
`spent = 0`, the rows are exactly the plan's categories plus "Other", and
each category row's budgeted value is its configured limit rescaled to the
queried period. -/
theorem C8_empty_bucket_no_error (plan : BudgetPlan) (txs txs2 : List Tx)
    (date_inc pv : String) (now : Date) (s2 : List SummaryRow)
    (hmatch : txs.filter (fun t => t.col date_inc = some pv) = [])
    (hok2 : Budget.simple_summary plan txs2 date_inc pv now = .ok s2) :
    ∃ s, Budget.simple_summary plan txs date_inc pv now = .ok s ∧
      (∀ r ∈ s, r.spent = 0) ∧
      s.map SummaryRow.category = plan.category_budgets.map Prod.fst ++ ["Other"] ∧
      (∀ bp, BudgetPeriod.make date_inc (defaultAnchor now) now = .ok bp →
        List.Forall₂ (fun (ci : String × BudgetItem) (row : SummaryRow) =>
          ci.2.period_limit bp = .ok row.total_budget)
          plan.category_budgets s.dropLast) := by
  unfold Budget.simple_summary at hok2
  simp only [except_bind_ok] at hok2
  obtain ⟨bp, hbp, u, hcol, perc, hperc, rows2, hrows2, total, htotal, -⟩ := hok2
  obtain ⟨rows, hrows, hbud⟩ :=
    catRows_transfer bp perc perc _ [] plan.category_budgets rows2 hrows2
  obtain ⟨hcats, hfor, hzero⟩ := catRows_facts bp perc [] plan.category_budgets rows hrows
  have hsum : (rows.map SummaryRow.spent).sum = 0 := by
    apply List.sum_eq_zero
    intro x hx
    obtain ⟨row, hrow, rfl⟩ := List.mem_map.mp hx
    exact hzero rfl row hrow
  refine ⟨rows ++ [⟨"Other", totalAmount [] - (rows.map SummaryRow.spent).sum,
      total - (rows.map SummaryRow.total_budget).sum,
      perc * (total - (rows.map SummaryRow.total_budget).sum)⟩], ?_, ?_, ?_, ?_⟩
  · unfold Budget.simple_summary
    simp only [except_bind_ok]
    rw [hmatch]
    exact ⟨bp, hbp, u, hcol, perc, hperc, rows, hrows, total, htotal, rfl⟩
  · intro r hr
    rcases List.mem_append.mp hr with hm | hm
    · exact hzero rfl r hm
    · rw [List.mem_singleton.mp hm]
      show totalAmount [] - (rows.map SummaryRow.spent).sum = 0
      rw [hsum]
      simp [totalAmount]
  · rw [List.map_append, hcats]
    rfl
  · intro bp2 hbp2
    rw [hbp] at hbp2
    injection hbp2 with hbp2
    subst hbp2
    rw [List.dropLast_concat]
    exact hfor

set_option maxRecDepth 10000 in
/-- C8 witness: the plan of `planA` queried for 2024-05 against a table
whose only transaction is in 2024-03. -/
theorem C8_witness :
    ∃ s, Budget.simple_summary planA [txMarch] ("month") ("2024-05") ⟨2024, 5, 15⟩
        = .ok s ∧
      (∀ r ∈ s, r.spent = 0) ∧
      s.map SummaryRow.category = planA.category_budgets.map Prod.fst ++ ["Other"] ∧
      (∀ bp, BudgetPeriod.make ("month") (defaultAnchor ⟨2024, 5, 15⟩) ⟨2024, 5, 15⟩
          = .ok bp →
        List.Forall₂ (fun (ci : String × BudgetItem) (row : SummaryRow) =>
          ci.2.period_limit bp = .ok row.total_budget)
          planA.category_budgets s.dropLast) :=
  C8_empty_bucket_no_error planA [txMarch] [] ("month") ("2024-05") ⟨2024, 5, 15⟩
    [⟨"A", 0, 100, 1400 / 31⟩, ⟨"Other", 0, 0, 0⟩]
    (by with_unfolding_all decide) (by with_unfolding_all decide)

end SimpleBudget
